import Mathlib

/-!
Shallow embedding of the core sampling functions of `synthpops/synthpops.py`.
Python/numpy floats are modelled as rationals (arithmetic exact); Python and
numpy exceptions are modelled with an explicit error type and `Except`;
every random draw is parametrized by an explicit oracle argument so that
theorems can quantify over every behaviour of the random source.
-/

/-- Errors raised by the embedded Python code.  `invalidDistribution` stands
for the `ValueError` that numpy's `multinomial`/`binomial` raise on a
probability vector with entries outside `[0,1]` or containing NaN (the NaN
case arises from the float division `0/0` when an all-zero array is
normalized); `shapeMismatch` for the broadcasting `ValueError` of `M += A`;
`keyError`, `indexError`, `attributeError` for the Python exceptions of the
same names; `noCandidates` for the `ValueError` of `np.random.choice` on an
empty pool. -/
inductive PyErr where
  | invalidDistribution
  | shapeMismatch
  | keyError
  | indexError
  | attributeError
  | noCandidates
  deriving DecidableEq

/-- Python `dic[k]` on an association list (a Python dict in insertion
order).  The `0` default is never consulted by the code below: it only looks
up keys that were taken from the very same list. -/
def lookupD (l : List (Nat × ℚ)) (k : Nat) : ℚ :=
  match l.find? (fun p => p.1 == k) with
  | some p => p.2
  | none => 0

/-- A failed `Option` lookup raises the given Python error. -/
def orErr {α : Type} (o : Option α) (e : PyErr) : Except PyErr α :=
  match o with
  | some a => .ok a
  | none => .error e

/-- The total `np.sum([dic[i] for i in dic], dtype = float)` of the dict's
values (synthpops.py line 12). -/
def dicTotal (l : List (Nat × ℚ)) : ℚ := (l.map Prod.snd).sum

/-- Source `norm_dic` (synthpops.py lines 8-18): if the total is zero the
input dict is returned unchanged, otherwise a new dict with each value
divided by the total. -/
def norm_dic (l : List (Nat × ℚ)) : List (Nat × ℚ) :=
  if dicTotal l = 0 then l
  else l.map (fun p => (p.1, p.2 / dicTotal l))

theorem dicTotal_map_div (l : List (Nat × ℚ)) (t : ℚ) :
    dicTotal (l.map (fun p => (p.1, p.2 / t))) = dicTotal l / t := by
  induction l with
  | nil => simp [dicTotal]
  | cons p rest ih =>
      simp [dicTotal, List.map_cons] at ih ⊢
      rw [ih, add_div]

/-- C8: for a mapping with non-negative weights and strictly positive total,
`norm_dic` returns a mapping with exactly the same keys, values summing to 1,
each output value being the input weight divided by the total; for a total of
exactly zero it returns the input unchanged. -/
theorem norm_dic_spec (l : List (Nat × ℚ)) :
    ((∀ p ∈ l, 0 ≤ p.2) → 0 < dicTotal l →
      (norm_dic l).map Prod.fst = l.map Prod.fst ∧
      dicTotal (norm_dic l) = 1 ∧
      norm_dic l = l.map (fun p => (p.1, p.2 / dicTotal l))) ∧
    (dicTotal l = 0 → norm_dic l = l) := by
  constructor
  · intro _ hpos
    have hne : dicTotal l ≠ 0 := ne_of_gt hpos
    have hdef : norm_dic l = l.map (fun p => (p.1, p.2 / dicTotal l)) := by
      simp [norm_dic, hne]
    refine ⟨?_, ?_, hdef⟩
    · rw [hdef]; simp [List.map_map, Function.comp_def]
    · rw [hdef, dicTotal_map_div, div_self hne]
  · intro h0
    simp [norm_dic, h0]

/-- Witness for `norm_dic_spec` at the concrete dict `{1: 2, 2: 6}`. -/
theorem norm_dic_spec_witness :
    (norm_dic [(1, (2 : ℚ)), (2, 6)]).map Prod.fst = [1, 2] ∧
    dicTotal (norm_dic [(1, (2 : ℚ)), (2, 6)]) = 1 ∧
    norm_dic [(0, (0 : ℚ))] = [(0, (0 : ℚ))] := by
  have h := (norm_dic_spec [(1, (2 : ℚ)), (2, 6)]).1
    (by intro p hp; simp at hp; rcases hp with h | h <;> rw [h] <;> norm_num)
    (by norm_num [dicTotal])
  have h0 := (norm_dic_spec [(0, (0 : ℚ))]).2 (by norm_num [dicTotal])
  exact ⟨h.1.trans rfl, h.2.1, h0⟩

/-- One Bernoulli draw, `binomial(1, p)` inside numpy's multinomial walk:
deterministically 0 for `p ≤ 0` and 1 for `p ≥ 1`; otherwise the outcome is
the oracle's coin. -/
def binomDrawOne (p : ℚ) (c : Bool) : Bool :=
  if p ≤ 0 then false else if 1 ≤ p then true else c

/-- The walk of numpy's `random_multinomial` for a single trial (`n = 1`):
iterate over the first `d-1` probabilities with remaining mass `s` (initially
1), returning the position of the first successful binomial draw, or the
last position `d-1` when every draw fails. -/
def mWalk : List ℚ → (Nat → Bool) → ℚ → Nat → Nat
  | [], _, _, j => j
  | p :: rest, coins, s, j =>
      if binomDrawOne (p / s) (coins j) then j
      else mWalk rest coins (s - p) (j + 1)

/-- `np.random.multinomial(1, pvals)` followed by `np.where(n)[0][0]`:
numpy validates that every entry of `pvals` is in `[0,1]` and that
`sum(pvals[:-1]) ≤ 1`, raising `ValueError` otherwise (the
`invalidDistribution` of the spec); for an empty `pvals` the indexing
`[0][0]` raises `IndexError`; otherwise one trial is assigned by the
sequential binomial walk. -/
def multinomialOne (pvals : List ℚ) (coins : Nat → Bool) : Except PyErr Nat :=
  if ∃ p ∈ pvals, p < 0 ∨ 1 < p then .error .invalidDistribution
  else if 1 < pvals.dropLast.sum then .error .invalidDistribution
  else if pvals = [] then .error .indexError
  else .ok (mWalk pvals.dropLast coins 1 0)

/-- `sorted(distr.keys())` (synthpops.py line 117). -/
def sortedKeys (l : List (Nat × ℚ)) : List Nat :=
  List.insertionSort (· ≤ ·) (l.map Prod.fst)

/-- A value returned by `sample_single`: a dict key or an array index. -/
inductive SampleValue where
  | key (k : Nat)
  | index (i : Nat)
  deriving DecidableEq

/-- The runtime type of the argument of `sample_single`: a Python dict, a
numpy ndarray, or anything else (e.g. a plain Python list of weights). -/
inductive Distr where
  | dict (l : List (Nat × ℚ))
  | arr (v : List ℚ)
  | pylist (v : List ℚ)

/-- Dict branch of `sample_single` (lines 115-121): normalize, sort the
keys, draw one multinomial trial over the values in sorted-key order, and
return the key at the drawn position.  The `getD` default is never consulted
since the drawn position is always below the number of keys. -/
def sample_single_dict (l : List (Nat × ℚ)) (coins : Nat → Bool) : Except PyErr Nat :=
  (multinomialOne ((sortedKeys (norm_dic l)).map (lookupD (norm_dic l))) coins).map
    (fun i => (sortedKeys (norm_dic l)).getD i 0)

/-- ndarray branch of `sample_single` (lines 122-126): `distr/np.sum(distr)`
then one multinomial trial, returning the drawn index.  For a nonempty
all-zero array the float division `0/0` produces NaN probabilities which
`multinomial` rejects with `ValueError`; for an empty array the indexing
`[0][0]` raises `IndexError`. -/
def sample_single_arr (v : List ℚ) (coins : Nat → Bool) : Except PyErr Nat :=
  if v.sum = 0 then
    if v = [] then .error .indexError else .error .invalidDistribution
  else multinomialOne (v.map (fun p => p / v.sum)) coins

/-- Source `sample_single` (synthpops.py lines 111-126): dict and ndarray
inputs are dispatched on their runtime type; any other input falls through
both branches and the Python function returns `None`. -/
def sample_single (d : Distr) (coins : Nat → Bool) : Except PyErr (Option SampleValue) :=
  match d with
  | .dict l => (sample_single_dict l coins).map (fun k => some (.key k))
  | .arr v => (sample_single_arr v coins).map (fun i => some (.index i))
  | .pylist _ => .ok none

/-- Source `sample_bracket` (synthpops.py lines 128-136): like the dict
branch of `sample_single` but without normalization, and returning the
position in sorted-key order rather than the key.  The `brackets` argument
is unused by the source body. -/
def sample_bracket (distr : List (Nat × ℚ)) (_brackets : List (List Nat))
    (coins : Nat → Bool) : Except PyErr Nat :=
  multinomialOne ((sortedKeys distr).map (lookupD distr)) coins

theorem dicTotal_eq_zero {l : List (Nat × ℚ)} (h : ∀ p ∈ l, p.2 = 0) :
    dicTotal l = 0 := by
  apply List.sum_eq_zero
  intro x hx
  rcases List.mem_map.mp hx with ⟨p, hp, rfl⟩
  exact h p hp

theorem lookupD_zero {l : List (Nat × ℚ)} (h : ∀ p ∈ l, p.2 = 0) (k : Nat) :
    lookupD l k = 0 := by
  unfold lookupD
  cases hf : l.find? (fun p => p.1 == k) with
  | none => rfl
  | some p => exact h p (List.mem_of_find?_eq_some hf)

theorem lookupD_nodup {l : List (Nat × ℚ)} (hnd : (l.map Prod.fst).Nodup)
    {k : Nat} {w : ℚ} (hm : (k, w) ∈ l) : lookupD l k = w := by
  induction l with
  | nil => cases hm
  | cons q rest ih =>
      simp only [List.map_cons, List.nodup_cons] at hnd
      rcases List.mem_cons.mp hm with h | h
      · subst h
        unfold lookupD
        rw [List.find?_cons_of_pos _ (by simp)]
      · have hk : q.1 ≠ k := by
          intro he
          exact hnd.1 (he ▸ List.mem_map.mpr ⟨(k, w), h, rfl⟩)
        unfold lookupD
        rw [List.find?_cons_of_neg _ (by simpa using hk)]
        exact ih hnd.2 h

theorem mWalk_allzero (l : List ℚ) (coins : Nat → Bool) :
    ∀ s j, (∀ p ∈ l, p = 0) → mWalk l coins s j = j + l.length := by
  induction l with
  | nil => intro s j _; simp [mWalk]
  | cons p rest ih =>
      intro s j h
      have hp : p = 0 := h p (List.mem_cons_self p rest)
      have hrest : ∀ q ∈ rest, q = 0 := fun q hq => h q (List.mem_cons_of_mem _ hq)
      simp only [mWalk, hp, zero_div, binomDrawOne, le_refl, if_true, if_false,
        Bool.false_eq_true]
      rw [ih _ _ hrest]
      simp [List.length_cons]
      omega

theorem multinomialOne_allzero {pvals : List ℚ} (coins : Nat → Bool)
    (h : ∀ p ∈ pvals, p = 0) (hne : pvals ≠ []) :
    multinomialOne pvals coins = .ok (pvals.length - 1) := by
  unfold multinomialOne
  rw [if_neg, if_neg, if_neg hne]
  · rw [mWalk_allzero _ _ _ _ (fun p hp => h p (List.dropLast_subset _ hp))]
    simp [List.length_dropLast]
  · rw [List.sum_eq_zero (fun p hp => h p (List.dropLast_subset _ hp))]
    norm_num
  · rintro ⟨p, hp, hcon⟩
    rw [h p hp] at hcon
    rcases hcon with hc | hc <;> norm_num at hc

theorem multinomialOne_neg {pvals : List ℚ} (coins : Nat → Bool)
    (h : ∃ p ∈ pvals, p < 0) :
    multinomialOne pvals coins = .error .invalidDistribution := by
  unfold multinomialOne
  rw [if_pos]
  rcases h with ⟨p, hp, hneg⟩
  exact ⟨p, hp, Or.inl hneg⟩

theorem norm_dic_keys (l : List (Nat × ℚ)) :
    (norm_dic l).map Prod.fst = l.map Prod.fst := by
  unfold norm_dic
  split
  · rfl
  · simp [List.map_map, Function.comp_def]

theorem sample_single_dict_err {l : List (Nat × ℚ)} (coins : Nat → Bool)
    (hnd : ((norm_dic l).map Prod.fst).Nodup)
    (h : ∃ p ∈ norm_dic l, p.2 < 0) :
    sample_single_dict l coins = .error .invalidDistribution := by
  rcases h with ⟨p, hp, hneg⟩
  have hk : p.1 ∈ sortedKeys (norm_dic l) :=
    (List.perm_insertionSort _ _).mem_iff.mpr (List.mem_map.mpr ⟨p, hp, rfl⟩)
  have hl : lookupD (norm_dic l) p.1 = p.2 :=
    lookupD_nodup hnd (by rwa [Prod.mk.eta])
  have hex : ∃ q ∈ (sortedKeys (norm_dic l)).map (lookupD (norm_dic l)), q < 0 :=
    ⟨p.2, by rw [← hl]; exact List.mem_map.mpr ⟨p.1, hk, rfl⟩, hneg⟩
  unfold sample_single_dict
  rw [multinomialOne_neg _ hex]
  rfl

/-- C1 counterexample: the all-zero dict distribution `{0: 0}` does not make
`sample_single` fail; it returns the key `0`. -/
theorem sample_single_allzero_counterexample :
    sample_single (.dict [(0, (0 : ℚ))]) (fun _ => false) = .ok (some (.key 0)) := by
  have hz : ∀ p ∈ [((0 : Nat), (0 : ℚ))], p.2 = 0 := by
    intro p hp; simp only [List.mem_singleton] at hp; rw [hp]
  have hn : norm_dic [(0, (0 : ℚ))] = [(0, (0 : ℚ))] := by
    simp [norm_dic, dicTotal_eq_zero hz]
  simp only [sample_single, sample_single_dict, hn]
  rw [show (sortedKeys [(0, (0 : ℚ))]).map (lookupD [(0, (0 : ℚ))]) = [(0 : ℚ)] from rfl]
  rw [multinomialOne_allzero _ (by intro p hp; simp only [List.mem_singleton] at hp; rw [hp])
    (by simp)]
  rfl

/-- C1 (amended): within `sample_single`, a dict distribution all of whose
weights are zero is passed through normalization unchanged and the sampler
returns a key (the trial lands on the last sorted key) instead of failing; a
dict distribution with a negative weight and a nonnegative total fails with
`InvalidDistribution`, and a nonempty all-zero ndarray distribution fails
with `InvalidDistribution` (NaN probabilities). -/
theorem sample_single_zero_neg_spec :
    (∀ (l : List (Nat × ℚ)) (coins : Nat → Bool), l ≠ [] → (∀ p ∈ l, p.2 = 0) →
      ∃ k, sample_single (.dict l) coins = .ok (some (.key k))) ∧
    (∀ (l : List (Nat × ℚ)) (coins : Nat → Bool), (l.map Prod.fst).Nodup →
      (∃ p ∈ l, p.2 < 0) → 0 ≤ dicTotal l →
      sample_single (.dict l) coins = .error .invalidDistribution) ∧
    (∀ (v : List ℚ) (coins : Nat → Bool), v ≠ [] → (∀ p ∈ v, p = 0) →
      sample_single (.arr v) coins = .error .invalidDistribution) := by
  refine ⟨?_, ?_, ?_⟩
  · intro l coins hne hz
    have hn : norm_dic l = l := by simp [norm_dic, dicTotal_eq_zero hz]
    have hpz : ∀ q ∈ (sortedKeys l).map (lookupD l), q = 0 := by
      intro q hq
      rcases List.mem_map.mp hq with ⟨k, _, rfl⟩
      exact lookupD_zero hz k
    have hpne : (sortedKeys l).map (lookupD l) ≠ [] := by
      intro hcon
      apply hne
      have h1 : List.insertionSort (· ≤ ·) (l.map Prod.fst) = [] :=
        List.map_eq_nil_iff.mp hcon
      have h2 : l.map Prod.fst = [] :=
        ((h1 ▸ List.perm_insertionSort (· ≤ ·) (l.map Prod.fst)).symm).eq_nil
      exact List.map_eq_nil_iff.mp h2
    refine ⟨((sortedKeys l).getD (((sortedKeys l).map (lookupD l)).length - 1) 0), ?_⟩
    simp only [sample_single, sample_single_dict, hn]
    rw [multinomialOne_allzero _ hpz hpne]
    rfl
  · intro l coins hnd hneg hge
    have hnd' : ((norm_dic l).map Prod.fst).Nodup := by rwa [norm_dic_keys]
    have hneg' : ∃ p ∈ norm_dic l, p.2 < 0 := by
      rcases hneg with ⟨p, hp, hplt⟩
      by_cases h0 : dicTotal l = 0
      · exact ⟨p, by simp [norm_dic, h0, hp], hplt⟩
      · have hpos : 0 < dicTotal l := lt_of_le_of_ne hge (Ne.symm h0)
        refine ⟨(p.1, p.2 / dicTotal l), ?_, div_neg_of_neg_of_pos hplt hpos⟩
        simp only [norm_dic, if_neg h0]
        exact List.mem_map.mpr ⟨p, hp, rfl⟩
    simp only [sample_single]
    rw [sample_single_dict_err _ hnd' hneg']
    rfl
  · intro v coins hne hz
    have hs : v.sum = 0 := List.sum_eq_zero hz
    simp only [sample_single, sample_single_arr, if_pos hs, if_neg hne]
    rfl

/-- Witness for `sample_single_zero_neg_spec` at concrete distributions. -/
theorem sample_single_zero_neg_spec_witness :
    (∃ k, sample_single (.dict [(5, (0 : ℚ))]) (fun _ => false) = .ok (some (.key k))) ∧
    sample_single (.dict [(0, (-1 : ℚ)), (1, 2)]) (fun _ => false) =
      .error .invalidDistribution ∧
    sample_single (.arr [(0 : ℚ), 0]) (fun _ => false) = .error .invalidDistribution := by
  refine ⟨sample_single_zero_neg_spec.1 _ _ (by simp) ?_,
    sample_single_zero_neg_spec.2.1 _ _ (by decide) ?_ ?_,
    sample_single_zero_neg_spec.2.2 _ _ (by simp) ?_⟩
  · intro p hp; simp only [List.mem_singleton] at hp; rw [hp]
  · exact ⟨(0, -1), by simp, by norm_num⟩
  · norm_num [dicTotal]
  · intro p hp
    simp only [List.mem_cons, List.not_mem_nil, or_false] at hp
    rcases hp with h | h <;> rw [h]

/-- C10: `sample_single` on an input that is neither a Python dict nor a
numpy ndarray (e.g. a plain Python list of weights) falls through both
type-dispatch branches and silently returns `None`. -/
theorem sample_single_other_returns_none (v : List ℚ) (coins : Nat → Bool) :
    sample_single (.pylist v) coins = .ok none := rfl

/-- A numpy 2-D array, as its list of rows. -/
abbrev Mat := List (List ℚ)

/-- `np.zeros((n, n))` (synthpops.py line 91). -/
def npZeros (n : Nat) : Mat := List.replicate n (List.replicate n 0)

/-- `matrix * weight`: elementwise scalar multiplication. -/
def matSmul (A : Mat) (w : ℚ) : Mat := A.map (fun row => row.map (fun x => x * w))

/-- Number of rows of `A`. -/
def matRows (A : Mat) : Nat := A.length

/-- Number of columns of `A` (length of its first row). -/
def matCols (A : Mat) : Nat := (A.headD []).length

/-- `A` is a well-formed (rectangular) 2-D array. -/
def matRect (A : Mat) : Prop := ∀ row ∈ A, row.length = matCols A

/-- numpy broadcast compatibility of `A` with an `n × n` array: each of the
two dimensions must equal `n` or 1. -/
def broadcastOK (A : Mat) (n : Nat) : Prop :=
  matRect A ∧ (matRows A = n ∨ matRows A = 1) ∧ (matCols A = n ∨ matCols A = 1)

instance (A : Mat) (n : Nat) : Decidable (broadcastOK A n) := by
  unfold broadcastOK matRect
  infer_instance

/-- `A` has shape `n × n`. -/
def isSquare (A : Mat) (n : Nat) : Prop :=
  A.length = n ∧ ∀ row ∈ A, row.length = n

instance (A : Mat) (n : Nat) : Decidable (isSquare A n) := by
  unfold isSquare
  infer_instance

/-- `M += A` with numpy broadcasting, for an accumulator `M` of shape
`n × n` (as built by `combine_matrices`): a dimension of `A` of size 1 is
broadcast across `M`; a shape that is not broadcast-compatible raises the
broadcasting `ValueError` (`shapeMismatch`). -/
def bcastAdd (n : Nat) (M A : Mat) : Except PyErr Mat :=
  if broadcastOK A n then
    if matRows A = 1 then
      if matCols A = 1 then
        .ok (M.map (fun r => r.map (fun x => x + (A.headD []).headD 0)))
      else
        .ok (M.map (fun r => List.zipWith (· + ·) r (A.headD [])))
    else
      if matCols A = 1 then
        .ok (List.zipWith (fun r arow => r.map (fun x => x + arow.headD 0)) M A)
      else
        .ok (List.zipWith (fun r arow => List.zipWith (· + ·) r arow) M A)
  else .error .shapeMismatch

/-- Python dict lookup `matrix_dic[setting_code]`. -/
def lookupMat (mdic : List (String × Mat)) (s : String) : Option Mat :=
  (mdic.find? (fun p => p.1 == s)).map Prod.snd

/-- Loop of `combine_matrices` (synthpops.py lines 92-93):
`M += matrix_dic[sc] * weights_dic[sc]` for each setting code of the weight
dict, in insertion order; a setting missing from the matrix dict raises
`KeyError`. -/
def combine_go (mdic : List (String × Mat)) (n : Nat) :
    List (String × ℚ) → Mat → Except PyErr Mat
  | [], M => .ok M
  | (s, w) :: rest, M =>
      match lookupMat mdic s with
      | none => .error .keyError
      | some A =>
          match bcastAdd n M (matSmul A w) with
          | .error e => .error e
          | .ok M' => combine_go mdic n rest M'

/-- Source `combine_matrices` (synthpops.py lines 90-94). -/
def combine_matrices (mdic : List (String × Mat)) (wdic : List (String × ℚ))
    (num_agebrackets : Nat) : Except PyErr Mat :=
  combine_go mdic num_agebrackets wdic (npZeros num_agebrackets)

theorem matCols_of_square {A : Mat} {n : Nat} (h : isSquare A n) : matCols A = n := by
  cases A with
  | nil => simpa [matCols] using h.1
  | cons r rest =>
      have := h.2 r (List.mem_cons_self r rest)
      simpa [matCols] using this

theorem broadcastOK_of_square {A : Mat} {n : Nat} (h : isSquare A n) :
    broadcastOK A n := by
  refine ⟨?_, Or.inl h.1, Or.inl (matCols_of_square h)⟩
  intro row hr
  rw [h.2 row hr, matCols_of_square h]

theorem npZeros_square (n : Nat) : isSquare (npZeros n) n := by
  refine ⟨List.length_replicate _ _, ?_⟩
  intro row hr
  rw [List.eq_of_mem_replicate hr]
  exact List.length_replicate _ _

theorem matSmul_square {A : Mat} {n : Nat} (w : ℚ) (h : isSquare A n) :
    isSquare (matSmul A w) n := by
  refine ⟨by simpa [matSmul] using h.1, ?_⟩
  intro row hr
  rcases List.mem_map.mp hr with ⟨r, hrm, rfl⟩
  simpa using h.2 r hrm

theorem matSmul_zero_entries (A : Mat) :
    ∀ row ∈ matSmul A 0, ∀ x ∈ row, x = 0 := by
  intro row hr x hx
  rcases List.mem_map.mp hr with ⟨r, _, rfl⟩
  rcases List.mem_map.mp hx with ⟨y, _, rfl⟩
  exact mul_zero y

theorem matSmul_one (A : Mat) : matSmul A 1 = A := by
  simp [matSmul]

theorem zipWith_eq_left {α β : Type} (f : α → β → α) :
    ∀ (M : List α) (A : List β), (∀ r ∈ M, ∀ a ∈ A, f r a = r) →
      M.length ≤ A.length → List.zipWith f M A = M := by
  intro M
  induction M with
  | nil => intro A _ _; simp
  | cons r M' ih =>
      intro A h hlen
      cases A with
      | nil => simp at hlen
      | cons a A' =>
          simp only [List.zipWith_cons_cons]
          rw [h r (List.mem_cons_self r M') a (List.mem_cons_self a A')]
          rw [ih A' (fun x hx y hy => h x (List.mem_cons_of_mem _ hx) y
            (List.mem_cons_of_mem _ hy)) (by simpa using hlen)]

theorem zipWith_add_allzero :
    ∀ (r z : List ℚ), (∀ x ∈ z, x = 0) → r.length ≤ z.length →
      List.zipWith (· + ·) r z = r := by
  intro r
  induction r with
  | nil => intro z _ _; simp
  | cons a r' ih =>
      intro z hz hlen
      cases z with
      | nil => simp at hlen
      | cons b z' =>
          simp only [List.zipWith_cons_cons]
          rw [hz b (List.mem_cons_self b z'), add_zero]
          rw [ih z' (fun x hx => hz x (List.mem_cons_of_mem _ hx)) (by simpa using hlen)]

theorem headD_headD_zero {A : Mat} (hz : ∀ row ∈ A, ∀ x ∈ row, x = 0) :
    (A.headD []).headD 0 = 0 := by
  cases A with
  | nil => rfl
  | cons r rest =>
      cases r with
      | nil => rfl
      | cons y ys =>
          exact hz (y :: ys) (List.mem_cons_self _ _) y (List.mem_cons_self y ys)

/-- Adding an all-zero broadcast-compatible square matrix leaves the
accumulator unchanged. -/
theorem bcastAdd_entrieszero {n : Nat} {M A : Mat} (hM : isSquare M n)
    (hA : isSquare A n) (hz : ∀ row ∈ A, ∀ x ∈ row, x = 0) :
    bcastAdd n M A = .ok M := by
  unfold bcastAdd
  rw [if_pos (broadcastOK_of_square hA)]
  split
  · split
    · rw [headD_headD_zero hz]
      simp
    · congr 1
      have hrow : ∀ x ∈ A.headD [], x = 0 := by
        intro x hx
        cases A with
        | nil => simp at hx
        | cons r rest => exact hz r (List.mem_cons_self r rest) x hx
      have hlen : ∀ r ∈ M, r.length ≤ (A.headD []).length := by
        intro r hr
        cases A with
        | nil =>
            have h0 : n = 0 := by simpa using hA.1.symm
            rw [hM.2 r hr, h0]
            simp
        | cons arow rest =>
            have h1 : r.length = n := hM.2 r hr
            have h2 : arow.length = n := hA.2 arow (List.mem_cons_self arow rest)
            simp [List.headD_cons, h1, h2]
      rw [List.map_congr_left (fun r hr => zipWith_add_allzero r _ hrow (hlen r hr))]
      exact List.map_id M
  · split
    · rw [zipWith_eq_left _ M A ?_ (by rw [hM.1, hA.1])]
      intro r hr arow harow
      have hall : ∀ x ∈ arow, x = 0 := hz arow harow
      have hhead : arow.headD 0 = 0 := by
        cases arow with
        | nil => rfl
        | cons y ys => exact hall y (List.mem_cons_self y ys)
      rw [hhead]
      simp
    · rw [zipWith_eq_left _ M A ?_ (by rw [hM.1, hA.1])]
      intro r hr arow harow
      exact zipWith_add_allzero r arow (hz arow harow)
        (by rw [hM.2 r hr, hA.2 arow harow])

theorem zipWith_zeros_row :
    ∀ (a : List ℚ) (n : Nat), a.length ≤ n →
      List.zipWith (· + ·) (List.replicate n 0) a = a := by
  intro a
  induction a with
  | nil => intro n _; simp
  | cons x a' ih =>
      intro n hlen
      cases n with
      | zero => simp at hlen
      | succ k =>
          simp only [List.replicate_succ, List.zipWith_cons_cons, zero_add]
          rw [ih k (by simpa using hlen)]

theorem zipWith_zerosmat :
    ∀ (A : Mat) (n : Nat), (∀ r ∈ A, r.length ≤ n) →
      List.zipWith (fun r arow => List.zipWith (· + ·) r arow)
        (List.replicate A.length (List.replicate n 0)) A = A := by
  intro A
  induction A with
  | nil => intro n _; simp
  | cons a A' ih =>
      intro n h
      simp only [List.length_cons, List.replicate_succ, List.zipWith_cons_cons]
      rw [zipWith_zeros_row _ _ (h a (List.mem_cons_self a A'))]
      rw [ih n (fun r hr => h r (List.mem_cons_of_mem _ hr))]

/-- Adding a square `n × n` matrix to the all-zero `n × n` accumulator
yields that matrix. -/
theorem bcastAdd_zeros {n : Nat} {A : Mat} (hA : isSquare A n) :
    bcastAdd n (npZeros n) A = .ok A := by
  have hcols : matCols A = n := matCols_of_square hA
  unfold bcastAdd
  rw [if_pos (broadcastOK_of_square hA)]
  split
  · rename_i h1
    have hn : n = 1 := by rw [← hA.1]; exact h1
    rw [if_pos (by rw [hcols, hn])]
    rcases List.length_eq_one.mp (by rw [hA.1, hn] : A.length = 1) with ⟨r, rfl⟩
    have hr1 : r.length = 1 := by rw [hA.2 r (List.mem_cons_self r []), hn]
    rcases List.length_eq_one.mp hr1 with ⟨x, rfl⟩
    subst hn
    simp [npZeros]
  · rename_i h1
    have hne : ¬ matCols A = 1 := by
      intro hc
      apply h1
      have hn1 : n = 1 := by rw [← hcols, hc]
      simpa [matRows, hA.1] using hn1
    rw [if_neg hne]
    have := zipWith_zerosmat A n (fun r hr => le_of_eq (hA.2 r hr))
    rw [show npZeros n = List.replicate A.length (List.replicate n 0) by
      rw [hA.1]; rfl]
    rw [this]

theorem lookupMat_square {mdic : List (String × Mat)} {K : Nat} {s : String}
    {B : Mat} (hsq : ∀ q ∈ mdic, isSquare q.2 K)
    (h : lookupMat mdic s = some B) : isSquare B K := by
  unfold lookupMat at h
  rcases Option.map_eq_some'.mp h with ⟨p, hp, rfl⟩
  exact hsq p (List.mem_of_find?_eq_some hp)

theorem combine_go_zero {mdic : List (String × Mat)} {n : Nat} :
    ∀ (wdic : List (String × ℚ)) (M : Mat), isSquare M n →
      (∀ q ∈ wdic, q.2 = 0) →
      (∀ q ∈ wdic, ∃ B, lookupMat mdic q.1 = some B ∧ isSquare B n) →
      combine_go mdic n wdic M = .ok M := by
  intro wdic
  induction wdic with
  | nil => intro M _ _ _; rfl
  | cons q rest ih =>
      intro M hM hz hpres
      obtain ⟨s, w⟩ := q
      have hw0 : w = 0 := hz (s, w) (List.mem_cons_self _ _)
      rcases hpres (s, w) (List.mem_cons_self _ _) with ⟨B, hB, hBsq⟩
      simp only [combine_go]
      rw [hB]
      show (match bcastAdd n M (matSmul B w) with
        | Except.error e => Except.error e
        | Except.ok M' => combine_go mdic n rest M') = Except.ok M
      rw [hw0, bcastAdd_entrieszero hM (matSmul_square 0 hBsq) (matSmul_zero_entries B)]
      exact ih M hM (fun q hq => hz q (List.mem_cons_of_mem _ hq))
        (fun q hq => hpres q (List.mem_cons_of_mem _ hq))

theorem combine_go_append (mdic : List (String × Mat)) (n : Nat) :
    ∀ (l1 l2 : List (String × ℚ)) (M : Mat),
      combine_go mdic n (l1 ++ l2) M =
        match combine_go mdic n l1 M with
        | .ok M' => combine_go mdic n l2 M'
        | .error e => .error e := by
  intro l1
  induction l1 with
  | nil => intro l2 M; rfl
  | cons q l1' ih =>
      intro l2 M
      obtain ⟨s, w⟩ := q
      cases hB : lookupMat mdic s with
      | none => simp only [List.cons_append, combine_go, hB]
      | some A =>
          simp only [List.cons_append, combine_go, hB]
          cases hC : bcastAdd n M (matSmul A w) with
          | error e => rfl
          | ok M' => exact ih l2 M'

/-- C7: combining with a weight set mapping every setting to zero yields the
all-zero `K × K` matrix, and a weight set giving weight 1 to one setting and
0 to every other reproduces that setting's matrix exactly. -/
theorem combine_matrices_zero_one_spec :
    (∀ (mdic : List (String × Mat)) (wdic : List (String × ℚ)) (K : Nat),
      (∀ q ∈ mdic, isSquare q.2 K) →
      (∀ q ∈ wdic, ∃ B, lookupMat mdic q.1 = some B) →
      (∀ q ∈ wdic, q.2 = 0) →
      combine_matrices mdic wdic K = .ok (npZeros K)) ∧
    (∀ (mdic : List (String × Mat)) (w1 w2 : List (String × ℚ)) (s : String)
        (A : Mat) (K : Nat),
      (∀ q ∈ mdic, isSquare q.2 K) →
      lookupMat mdic s = some A →
      (∀ q ∈ w1 ++ w2, ∃ B, lookupMat mdic q.1 = some B) →
      (∀ q ∈ w1 ++ w2, q.2 = 0) →
      combine_matrices mdic (w1 ++ (s, 1) :: w2) K = .ok A) := by
  constructor
  · intro mdic wdic K hsq hpres hz
    unfold combine_matrices
    apply combine_go_zero wdic (npZeros K) (npZeros_square K) hz
    intro q hq
    rcases hpres q hq with ⟨B, hB⟩
    exact ⟨B, hB, lookupMat_square hsq hB⟩
  · intro mdic w1 w2 s A K hsq hA hpres hz
    have hAsq : isSquare A K := lookupMat_square hsq hA
    have hpres1 : ∀ q ∈ w1, ∃ B, lookupMat mdic q.1 = some B ∧ isSquare B K := by
      intro q hq
      rcases hpres q (List.mem_append_left _ hq) with ⟨B, hB⟩
      exact ⟨B, hB, lookupMat_square hsq hB⟩
    have hpres2 : ∀ q ∈ w2, ∃ B, lookupMat mdic q.1 = some B ∧ isSquare B K := by
      intro q hq
      rcases hpres q (List.mem_append_right _ hq) with ⟨B, hB⟩
      exact ⟨B, hB, lookupMat_square hsq hB⟩
    unfold combine_matrices
    rw [combine_go_append]
    rw [combine_go_zero w1 (npZeros K) (npZeros_square K)
      (fun q hq => hz q (List.mem_append_left _ hq)) hpres1]
    show combine_go mdic K ((s, 1) :: w2) (npZeros K) = .ok A
    simp only [combine_go]
    rw [hA]
    show (match bcastAdd K (npZeros K) (matSmul A 1) with
      | Except.error e => Except.error e
      | Except.ok M' => combine_go mdic K w2 M') = Except.ok A
    rw [matSmul_one, bcastAdd_zeros hAsq]
    exact combine_go_zero w2 A hAsq
      (fun q hq => hz q (List.mem_append_right _ hq)) hpres2

/-- Witness for `combine_matrices_zero_one_spec` at a concrete two-setting
matrix dict. -/
theorem combine_matrices_zero_one_spec_witness :
    combine_matrices [("H", [[(1 : ℚ), 2], [3, 4]]), ("S", [[5, 6], [7, 8]])]
      [("H", 0), ("S", 0)] 2 = .ok (npZeros 2) ∧
    combine_matrices [("H", [[(1 : ℚ), 2], [3, 4]]), ("S", [[5, 6], [7, 8]])]
      [("H", 0), ("S", 1)] 2 = .ok [[5, 6], [7, 8]] := by
  constructor
  · apply combine_matrices_zero_one_spec.1
    · intro q hq
      simp only [List.mem_cons, List.not_mem_nil, or_false] at hq
      rcases hq with h | h <;> rw [h] <;> decide
    · intro q hq
      simp only [List.mem_cons, List.not_mem_nil, or_false] at hq
      rcases hq with h | h <;> rw [h]
      · exact ⟨[[(1 : ℚ), 2], [3, 4]], rfl⟩
      · exact ⟨[[(5 : ℚ), 6], [7, 8]], rfl⟩
    · intro q hq
      simp only [List.mem_cons, List.not_mem_nil, or_false] at hq
      rcases hq with h | h <;> rw [h]
  · apply combine_matrices_zero_one_spec.2
        [("H", [[(1 : ℚ), 2], [3, 4]]), ("S", [[5, 6], [7, 8]])]
        [("H", 0)] [] "S" [[5, 6], [7, 8]] 2
    · intro q hq
      simp only [List.mem_cons, List.not_mem_nil, or_false] at hq
      rcases hq with h | h <;> rw [h] <;> decide
    · rfl
    · intro q hq
      simp only [List.append_nil, List.mem_cons, List.not_mem_nil, or_false] at hq
      rw [hq]
      exact ⟨[[(1 : ℚ), 2], [3, 4]], rfl⟩
    · intro q hq
      simp only [List.append_nil, List.mem_cons, List.not_mem_nil, or_false] at hq
      rw [hq]

theorem matRows_matSmul (A : Mat) (w : ℚ) : matRows (matSmul A w) = matRows A := by
  simp [matRows, matSmul]

theorem matCols_matSmul (A : Mat) (w : ℚ) : matCols (matSmul A w) = matCols A := by
  cases A with
  | nil => rfl
  | cons r rest => simp [matCols, matSmul]

theorem matRect_matSmul {A : Mat} {w : ℚ} : matRect (matSmul A w) ↔ matRect A := by
  unfold matRect
  rw [matCols_matSmul]
  constructor
  · intro h r hr
    have := h (r.map (fun x => x * w)) (List.mem_map.mpr ⟨r, hr, rfl⟩)
    simpa using this
  · intro h row hrow
    rcases List.mem_map.mp hrow with ⟨r, hr, rfl⟩
    simpa using h r hr

theorem broadcastOK_matSmul {A : Mat} {w : ℚ} {n : Nat} :
    broadcastOK (matSmul A w) n ↔ broadcastOK A n := by
  unfold broadcastOK
  rw [matRows_matSmul, matCols_matSmul, matRect_matSmul]

theorem mem_zipWith_imp {α β γ : Type} (f : α → β → γ) :
    ∀ (M : List α) (A : List β) (c : γ), c ∈ List.zipWith f M A →
      ∃ r ∈ M, ∃ a ∈ A, c = f r a := by
  intro M
  induction M with
  | nil => intro A c hc; simp at hc
  | cons r M' ih =>
      intro A c hc
      cases A with
      | nil => simp at hc
      | cons a A' =>
          rw [List.zipWith_cons_cons] at hc
          rcases List.mem_cons.mp hc with h | h
          · exact ⟨r, List.mem_cons_self r M', a, List.mem_cons_self a A', h⟩
          · rcases ih A' c h with ⟨r', hr', a', ha', he⟩
            exact ⟨r', List.mem_cons_of_mem _ hr', a', List.mem_cons_of_mem _ ha', he⟩

/-- A broadcast-compatible addend never makes `M += A` fail. -/
theorem bcastAdd_ok_of_OK {n : Nat} (M : Mat) {A : Mat} (h : broadcastOK A n) :
    ∃ R, bcastAdd n M A = .ok R := by
  unfold bcastAdd
  rw [if_pos h]
  split <;> split <;> exact ⟨_, rfl⟩

theorem bcastAdd_err {n : Nat} (M : Mat) {A : Mat} (h : ¬ broadcastOK A n) :
    bcastAdd n M A = .error .shapeMismatch := by
  unfold bcastAdd
  rw [if_neg h]

/-- `M += A` with both operands square `n × n` succeeds and stays `n × n`. -/
theorem bcastAdd_square {n : Nat} {M A : Mat} (hM : isSquare M n) (hA : isSquare A n) :
    ∃ R, bcastAdd n M A = .ok R ∧ isSquare R n := by
  have hcols := matCols_of_square hA
  unfold bcastAdd
  rw [if_pos (broadcastOK_of_square hA)]
  split
  · split
    · refine ⟨_, rfl, ?_, ?_⟩
      · simpa using hM.1
      · intro row hrow
        rcases List.mem_map.mp hrow with ⟨r, hr, rfl⟩
        simpa using hM.2 r hr
    · rename_i h1 h2
      exfalso
      apply h2
      rw [hcols, ← hA.1]
      exact h1
  · split
    · rename_i h1 h2
      exfalso
      apply h1
      show A.length = 1
      rw [hA.1, ← hcols]
      exact h2
    · refine ⟨_, rfl, ?_, ?_⟩
      · rw [List.length_zipWith, hM.1, hA.1, min_self]
      · intro row hrow
        rcases mem_zipWith_imp _ M A row hrow with ⟨r, hr, a, ha, rfl⟩
        rw [List.length_zipWith, hM.2 r hr, hA.2 a ha, min_self]

theorem combine_go_square {mdic : List (String × Mat)} {K : Nat} :
    ∀ (wdic : List (String × ℚ)) (M : Mat), isSquare M K →
      (∀ q ∈ wdic, ∃ B, lookupMat mdic q.1 = some B ∧ isSquare B K) →
      ∃ M', combine_go mdic K wdic M = .ok M' ∧ isSquare M' K := by
  intro wdic
  induction wdic with
  | nil => intro M hM _; exact ⟨M, rfl, hM⟩
  | cons q rest ih =>
      intro M hM hpres
      obtain ⟨s, w⟩ := q
      rcases hpres (s, w) (List.mem_cons_self _ _) with ⟨B, hB, hBsq⟩
      rcases bcastAdd_square hM (matSmul_square w hBsq) with ⟨R, hR, hRsq⟩
      simp only [combine_go]
      rw [hB]
      show ∃ M', (match bcastAdd K M (matSmul B w) with
        | Except.error e => Except.error e
        | Except.ok M' => combine_go mdic K rest M') = Except.ok M' ∧ isSquare M' K
      rw [hR]
      exact ih R hRsq (fun q hq => hpres q (List.mem_cons_of_mem _ hq))

theorem combine_go_err {mdic : List (String × Mat)} {K : Nat} :
    ∀ (wdic : List (String × ℚ)) (M : Mat),
      (∀ q ∈ wdic, ∃ B, lookupMat mdic q.1 = some B) →
      (∃ q ∈ wdic, ∃ B, lookupMat mdic q.1 = some B ∧ ¬ broadcastOK B K) →
      combine_go mdic K wdic M = .error .shapeMismatch := by
  intro wdic
  induction wdic with
  | nil => intro M _ hbad; simp at hbad
  | cons q rest ih =>
      intro M hpres hbad
      obtain ⟨s, w⟩ := q
      rcases hpres (s, w) (List.mem_cons_self _ _) with ⟨B, hB⟩
      simp only [combine_go]
      rw [hB]
      show (match bcastAdd K M (matSmul B w) with
        | Except.error e => Except.error e
        | Except.ok M' => combine_go mdic K rest M') = Except.error PyErr.shapeMismatch
      by_cases hOK : broadcastOK (matSmul B w) K
      · rcases bcastAdd_ok_of_OK M hOK with ⟨R, hR⟩
        rw [hR]
        show combine_go mdic K rest R = Except.error PyErr.shapeMismatch
        apply ih R (fun q hq => hpres q (List.mem_cons_of_mem _ hq))
        rcases hbad with ⟨q', hq', B', hB', hbadB⟩
        rcases List.mem_cons.mp hq' with h | h
        · exfalso
          apply hbadB
          have hBB : B' = B := by
            rw [h] at hB'
            exact Option.some.inj (hB'.symm.trans hB)
          rw [hBB]
          exact broadcastOK_matSmul.mp hOK
        · exact ⟨q', h, B', hB', hbadB⟩
      · rw [bcastAdd_err M hOK]

/-- C9 counterexample: two selected matrices of different sizes (1×1 and
2×2) do not make `combine_matrices` fail — numpy broadcasts the 1×1 matrix
across the 2×2 accumulator. -/
theorem combine_matrices_sizediff_counterexample :
    combine_matrices [("H", [[(5 : ℚ)]]), ("S", [[1, 2], [3, 4]])]
      [("H", 1), ("S", 1)] 2 = .ok [[6, 7], [8, 9]] := by
  norm_num [combine_matrices, combine_go, lookupMat, bcastAdd, broadcastOK,
    matRect, matRows, matCols, matSmul, npZeros, List.find?,
    List.replicate_succ, List.zipWith_cons_cons,
    show ("H" == "S") = false from rfl, show ("H" == "H") = true from rfl,
    show ("S" == "S") = true from rfl]

/-- C9 (amended): `combine_matrices` fails with `ShapeMismatch` when some
selected matrix has a dimension that is neither `K` nor 1 (not
numpy-broadcastable to `K × K`); selected matrices that merely differ in
size while remaining broadcastable (e.g. a 1×1 matrix) are accepted and
broadcast.  When every selected matrix is `K × K`, the result has shape
`K × K`. -/
theorem combine_matrices_shape_spec :
    (∀ (mdic : List (String × Mat)) (wdic : List (String × ℚ)) (K : Nat),
      (∀ q ∈ wdic, ∃ B, lookupMat mdic q.1 = some B) →
      (∃ q ∈ wdic, ∃ B, lookupMat mdic q.1 = some B ∧ ¬ broadcastOK B K) →
      combine_matrices mdic wdic K = .error .shapeMismatch) ∧
    (∀ (mdic : List (String × Mat)) (wdic : List (String × ℚ)) (K : Nat),
      (∀ q ∈ mdic, isSquare q.2 K) →
      (∀ q ∈ wdic, ∃ B, lookupMat mdic q.1 = some B) →
      ∃ M, combine_matrices mdic wdic K = .ok M ∧ isSquare M K) := by
  constructor
  · intro mdic wdic K hpres hbad
    exact combine_go_err wdic (npZeros K) hpres hbad
  · intro mdic wdic K hsq hpres
    apply combine_go_square wdic (npZeros K) (npZeros_square K)
    intro q hq
    rcases hpres q hq with ⟨B, hB⟩
    exact ⟨B, hB, lookupMat_square hsq hB⟩

/-- Witness for `combine_matrices_shape_spec`: a 3×3 matrix selected with
`K = 2` raises `ShapeMismatch`; a 2×2 matrix with `K = 2` yields a 2×2
result. -/
theorem combine_matrices_shape_spec_witness :
    combine_matrices [("H", [[(1 : ℚ), 2, 3], [4, 5, 6], [7, 8, 9]])] [("H", 1)] 2 =
      .error .shapeMismatch ∧
    ∃ M, combine_matrices [("H", [[(1 : ℚ), 2], [3, 4]])] [("H", 1)] 2 = .ok M ∧
      isSquare M 2 := by
  constructor
  · apply combine_matrices_shape_spec.1
    · intro q hq
      simp only [List.mem_singleton] at hq
      rw [hq]
      exact ⟨[[(1 : ℚ), 2, 3], [4, 5, 6], [7, 8, 9]], rfl⟩
    · exact ⟨("H", 1), List.mem_cons_self _ _,
        [[(1 : ℚ), 2, 3], [4, 5, 6], [7, 8, 9]], rfl, by decide⟩
  · apply combine_matrices_shape_spec.2
    · intro q hq
      simp only [List.mem_singleton] at hq
      rw [hq]
      decide
    · intro q hq
      simp only [List.mem_singleton] at hq
      rw [hq]
      exact ⟨[[(1 : ℚ), 2], [3, 4]], rfl⟩

/-- `np.arange(age_min, age_max + 1)` on integers (synthpops.py line 60):
the ages `age_min, ..., age_max` in ascending order. -/
def np_arange (lo hi : Nat) : List Nat := (List.range (hi + 1 - lo)).map (lo + ·)

/-- Inner loop of `get_age_by_brackets_dic`: write `age ↦ b` into the dict
for every age of one bracket; a later write overwrites an earlier one. -/
def insertAges : List Nat → Nat → (Nat → Option Nat) → Nat → Option Nat
  | [], _, m => m
  | a :: rest, b, m => insertAges rest b (fun x => if x = a then some b else m x)

/-- Outer loop of `get_age_by_brackets_dic` over brackets in index order. -/
def abdGo : List (List Nat) → Nat → (Nat → Option Nat) → Nat → Option Nat
  | [], _, m => m
  | bk :: rest, b, m => abdGo rest (b + 1) (insertAges bk b m)

/-- Source `get_age_by_brackets_dic` (synthpops.py lines 63-71): the dict
mapping each age to the bracket containing it (the last bracket writing that
age wins); `none` models `KeyError` for an uncovered age. -/
def get_age_by_brackets_dic (age_brackets : List (List Nat)) : Nat → Option Nat :=
  abdGo age_brackets 0 (fun _ => none)

theorem insertAges_notmem {a : Nat} :
    ∀ (bk : List Nat) (b : Nat) (m : Nat → Option Nat), a ∉ bk →
      insertAges bk b m a = m a := by
  intro bk
  induction bk with
  | nil => intro b m _; rfl
  | cons x rest ih =>
      intro b m hna
      have hx : a ≠ x := fun he => hna (he ▸ List.mem_cons_self x rest)
      have hr : a ∉ rest := fun hm => hna (List.mem_cons_of_mem _ hm)
      simp only [insertAges]
      rw [ih b _ hr]
      simp [hx]

theorem insertAges_mem {a : Nat} :
    ∀ (bk : List Nat) (b : Nat) (m : Nat → Option Nat), a ∈ bk →
      insertAges bk b m a = some b := by
  intro bk
  induction bk with
  | nil => intro b m h; cases h
  | cons x rest ih =>
      intro b m hm
      simp only [insertAges]
      by_cases hr : a ∈ rest
      · exact ih b _ hr
      · have hx : a = x := by
          rcases List.mem_cons.mp hm with h | h
          · exact h
          · exact absurd h hr
        rw [insertAges_notmem rest b _ hr]
        simp [hx]

theorem abdGo_notmem {a : Nat} :
    ∀ (bks : List (List Nat)) (b0 : Nat) (m : Nat → Option Nat),
      (∀ bk ∈ bks, a ∉ bk) → abdGo bks b0 m a = m a := by
  intro bks
  induction bks with
  | nil => intro b0 m _; rfl
  | cons bk rest ih =>
      intro b0 m h
      simp only [abdGo]
      rw [ih (b0 + 1) _ (fun bk' h' => h bk' (List.mem_cons_of_mem _ h'))]
      exact insertAges_notmem bk b0 m (h bk (List.mem_cons_self bk rest))

theorem abdGo_mem {a : Nat} :
    ∀ (bks : List (List Nat)) (b0 j : Nat) (m : Nat → Option Nat)
      (bk : List Nat), bks.get? j = some bk → a ∈ bk →
      List.Pairwise (fun bk1 bk2 => ∀ x ∈ bk1, x ∉ bk2) bks →
      abdGo bks b0 m a = some (b0 + j) := by
  intro bks
  induction bks with
  | nil => intro b0 j m bk h; cases h
  | cons bk0 rest ih =>
      intro b0 j m bk hget hmem hpw
      rcases List.pairwise_cons.mp hpw with ⟨hhead, htail⟩
      cases j with
      | zero =>
          have hbk : bk0 = bk := by simpa using hget
          subst hbk
          simp only [abdGo]
          rw [abdGo_notmem rest (b0 + 1) _ (fun bk' h' => hhead bk' h' a hmem)]
          rw [insertAges_mem bk0 b0 _ hmem]
          simp
      | succ j' =>
          have hget' : rest.get? j' = some bk := by simpa using hget
          simp only [abdGo]
          rw [ih (b0 + 1) j' _ bk hget' hmem htail]
          congr 1
          omega

/-- C6: for bracket definitions whose brackets are pairwise disjoint (no
overlaps), looking up the `i`-th age of bracket `b` in the age-to-bracket
dict built by `get_age_by_brackets_dic` returns `b` (round-trip). -/
theorem get_age_by_brackets_dic_roundtrip
    (age_brackets : List (List Nat))
    (hdisj : List.Pairwise (fun bk1 bk2 => ∀ x ∈ bk1, x ∉ bk2) age_brackets)
    (b : Nat) (hb : b < age_brackets.length)
    (i : Nat) (hi : i < (age_brackets.get ⟨b, hb⟩).length) :
    get_age_by_brackets_dic age_brackets
      ((age_brackets.get ⟨b, hb⟩).get ⟨i, hi⟩) = some b := by
  unfold get_age_by_brackets_dic
  have hget : age_brackets.get? b = some (age_brackets.get ⟨b, hb⟩) :=
    List.get?_eq_get hb
  have hmem : (age_brackets.get ⟨b, hb⟩).get ⟨i, hi⟩ ∈ age_brackets.get ⟨b, hb⟩ :=
    List.get_mem _ _ _
  simpa using abdGo_mem age_brackets 0 b _ _ hget hmem hdisj

/-- Witness for `get_age_by_brackets_dic_roundtrip` at brackets
`{0: [0, 1], 1: [2, 3]}`: age 2 (bracket 1, position 0) maps back to 1. -/
theorem get_age_by_brackets_dic_roundtrip_witness :
    get_age_by_brackets_dic [[0, 1], [2, 3]] 2 = some 1 := by
  have h := get_age_by_brackets_dic_roundtrip [[0, 1], [2, 3]]
    (by decide) 1 (by decide) 0 (by decide)
  simpa using h

/-- `np.random.choice(lst)`: one uniform choice from a finite collection,
the oracle's pick selecting the element; an empty collection raises
`ValueError` (`noCandidates`). -/
def np_choice {α : Type} (l : List α) (pick : Nat) : Except PyErr α :=
  if h : l.length = 0 then .error .noCandidates
  else .ok (l.get ⟨pick % l.length, Nat.mod_lt _ (Nat.pos_of_ne_zero h)⟩)

/-- Source `sample_contact_age` (synthpops.py lines 138-145): resolve the
individual's bracket, sample a destination bracket from the matrix row
(`sample_single` on an ndarray row takes its ndarray branch,
`sample_single_arr`), and choose an age uniformly from that bracket.  A
missing age in the bracket dict raises `KeyError`; a row index beyond the
matrix raises `IndexError`; a missing destination bracket raises
`KeyError`. -/
def sample_contact_age (age : Nat) (age_brackets : List (List Nat))
    (age_by_brackets_dic : Nat → Option Nat) (age_mixing_matrix : Mat)
    (coins : Nat → Bool) (pick : Nat) : Except PyErr Nat :=
  match age_by_brackets_dic age with
  | none => .error .keyError
  | some b =>
      match age_mixing_matrix.get? b with
      | none => .error .indexError
      | some row =>
          match sample_single_arr row coins with
          | .error e => .error e
          | .ok b_contact =>
              match age_brackets.get? b_contact with
              | none => .error .keyError
              | some bk => np_choice bk pick

/-- Loop of `sample_n_contact_ages`: contact `i` consumes the `i`-th entry
of the oracle (its multinomial coins and its uniform pick). -/
def sampleAgesGo (age : Nat) (age_brackets : List (List Nat))
    (abm : Nat → Option Nat) (M : Mat) (oracle : Nat → (Nat → Bool) × Nat) :
    Nat → Nat → Except PyErr (List Nat)
  | 0, _ => .ok []
  | k + 1, i =>
      match sample_contact_age age age_brackets abm M (oracle i).1 (oracle i).2 with
      | .error e => .error e
      | .ok a =>
          match sampleAgesGo age age_brackets abm M oracle k (i + 1) with
          | .error e => .error e
          | .ok rest => .ok (a :: rest)

/-- Source `sample_n_contact_ages` (synthpops.py lines 147-158): combine the
setting matrices under the weight set, then draw `n_contacts` contact ages
from the combined matrix. -/
def sample_n_contact_ages (n_contacts age : Nat) (age_brackets : List (List Nat))
    (age_by_brackets_dic : Nat → Option Nat) (age_mixing_matrix_dic : List (String × Mat))
    (weights_dic : List (String × ℚ)) (num_agebrackets : Nat)
    (oracle : Nat → (Nat → Bool) × Nat) : Except PyErr (List Nat) :=
  match combine_matrices age_mixing_matrix_dic weights_dic num_agebrackets with
  | .error e => .error e
  | .ok M => sampleAgesGo age age_brackets age_by_brackets_dic M oracle n_contacts 0

theorem mWalk_lt (coins : Nat → Bool) :
    ∀ (l : List ℚ) (s : ℚ) (j : Nat), mWalk l coins s j < j + l.length + 1 := by
  intro l
  induction l with
  | nil => intro s j; simp [mWalk]
  | cons p rest ih =>
      intro s j
      simp only [mWalk]
      split
      · simp
        omega
      · have := ih (s - p) (j + 1)
        simp only [List.length_cons]
        omega

theorem multinomialOne_lt {pvals : List ℚ} {coins : Nat → Bool} {i : Nat}
    (h : multinomialOne pvals coins = .ok i) : i < pvals.length := by
  unfold multinomialOne at h
  split at h
  · cases h
  · split at h
    · cases h
    · split at h
      · cases h
      · rename_i hne
        have hlen : pvals.length ≠ 0 := fun hc =>
          hne (List.length_eq_zero.mp hc)
        have := mWalk_lt coins pvals.dropLast 1 0
        rw [List.length_dropLast] at this
        cases h
        omega

theorem multinomialOne_ok {pvals : List ℚ} (coins : Nat → Bool)
    (hnn : ∀ p ∈ pvals, 0 ≤ p) (hle : ∀ p ∈ pvals, p ≤ 1)
    (hsum : pvals.dropLast.sum ≤ 1) (hne : pvals ≠ []) :
    ∃ i, multinomialOne pvals coins = .ok i ∧ i < pvals.length := by
  have heq : multinomialOne pvals coins = .ok (mWalk pvals.dropLast coins 1 0) := by
    unfold multinomialOne
    rw [if_neg, if_neg (not_lt.mpr hsum), if_neg hne]
    rintro ⟨p, hp, hc | hc⟩
    · exact absurd hc (not_lt.mpr (hnn p hp))
    · exact absurd hc (not_lt.mpr (hle p hp))
  exact ⟨_, heq, multinomialOne_lt heq⟩

theorem sum_map_div_list (w : List ℚ) (s : ℚ) :
    (w.map (fun p => p / s)).sum = w.sum / s := by
  induction w with
  | nil => simp
  | cons p rest ih => simp [ih, add_div]

theorem sum_dropLast_le {l : List ℚ} (hnn : ∀ p ∈ l, 0 ≤ p) :
    l.dropLast.sum ≤ l.sum := by
  cases hl : l with
  | nil => simp
  | cons p rest =>
      have hne : l ≠ [] := by rw [hl]; exact List.cons_ne_nil p rest
      rw [← hl]
      conv_rhs => rw [← List.dropLast_append_getLast hne]
      rw [List.sum_append]
      have : 0 ≤ l.getLast hne := hnn _ (List.getLast_mem hne)
      simp
      linarith

/-- The ndarray branch of `sample_single` on a nonnegative row with positive
sum succeeds and returns an index below the row length. -/
theorem sample_single_arr_ok {v : List ℚ} (coins : Nat → Bool)
    (hnn : ∀ p ∈ v, 0 ≤ p) (hpos : 0 < v.sum) :
    ∃ i, sample_single_arr v coins = .ok i ∧ i < v.length := by
  have hsne : v.sum ≠ 0 := ne_of_gt hpos
  have hvne : v ≠ [] := by
    intro hc
    rw [hc] at hpos
    simp at hpos
  have hpne : v.map (fun p => p / v.sum) ≠ [] := by
    simpa using hvne
  have hnn' : ∀ p ∈ v.map (fun p => p / v.sum), 0 ≤ p := by
    intro p hp
    rcases List.mem_map.mp hp with ⟨q, hq, rfl⟩
    exact div_nonneg (hnn q hq) (le_of_lt hpos)
  have hle' : ∀ p ∈ v.map (fun p => p / v.sum), p ≤ 1 := by
    intro p hp
    rcases List.mem_map.mp hp with ⟨q, hq, rfl⟩
    rw [div_le_one hpos]
    exact List.single_le_sum hnn q hq
  have hsum' : (v.map (fun p => p / v.sum)).dropLast.sum ≤ 1 := by
    calc (v.map (fun p => p / v.sum)).dropLast.sum
        ≤ (v.map (fun p => p / v.sum)).sum := sum_dropLast_le hnn'
      _ = v.sum / v.sum := sum_map_div_list v v.sum
      _ = 1 := div_self hsne
  rcases multinomialOne_ok coins hnn' hle' hsum' hpne with ⟨i, hi, hlt⟩
  refine ⟨i, ?_, by simpa using hlt⟩
  unfold sample_single_arr
  rw [if_neg hsne]
  exact hi

theorem np_choice_mem {α : Type} {l : List α} (pick : Nat) (h : l ≠ []) :
    ∃ a, np_choice l pick = .ok a ∧ a ∈ l := by
  have hlen : l.length ≠ 0 := fun hc => h (List.length_eq_zero.mp hc)
  unfold np_choice
  rw [dif_neg hlen]
  exact ⟨_, rfl, List.get_mem _ _ _⟩

/-- One contact draw succeeds and lands in some bracket, for a covered age
and a samplable matrix row matching the bracket count. -/
theorem sample_contact_age_ok {age b : Nat} {age_brackets : List (List Nat)}
    {abm : Nat → Option Nat} {M : Mat} {row : List ℚ}
    (coins : Nat → Bool) (pick : Nat)
    (hb : abm age = some b) (hrow : M.get? b = some row)
    (hnn : ∀ p ∈ row, 0 ≤ p) (hpos : 0 < row.sum)
    (hlen : row.length = age_brackets.length)
    (hbne : ∀ bk ∈ age_brackets, bk ≠ []) :
    ∃ a, sample_contact_age age age_brackets abm M coins pick = .ok a ∧
      ∃ bk ∈ age_brackets, a ∈ bk := by
  rcases sample_single_arr_ok coins hnn hpos with ⟨i, hi, hlt⟩
  have hibk : i < age_brackets.length := by rw [← hlen]; exact hlt
  rcases List.get?_eq_get hibk with hbk
  rcases np_choice_mem pick (hbne _ (List.get_mem age_brackets i hibk)) with ⟨a, ha, ham⟩
  refine ⟨a, ?_, age_brackets.get ⟨i, hibk⟩, List.get_mem _ _ _, ham⟩
  unfold sample_contact_age
  rw [hb]
  show (match M.get? b with
    | none => Except.error PyErr.indexError
    | some row =>
      match sample_single_arr row coins with
      | Except.error e => Except.error e
      | Except.ok b_contact =>
        match age_brackets.get? b_contact with
        | none => Except.error PyErr.keyError
        | some bk => np_choice bk pick) = Except.ok a
  rw [hrow]
  show (match sample_single_arr row coins with
    | Except.error e => Except.error e
    | Except.ok b_contact =>
      match age_brackets.get? b_contact with
      | none => Except.error PyErr.keyError
      | some bk => np_choice bk pick) = Except.ok a
  rw [hi]
  show (match age_brackets.get? i with
    | none => Except.error PyErr.keyError
    | some bk => np_choice bk pick) = Except.ok a
  rw [hbk]
  exact ha

theorem sampleAgesGo_ok {age b : Nat} {age_brackets : List (List Nat)}
    {abm : Nat → Option Nat} {M : Mat} {row : List ℚ}
    (oracle : Nat → (Nat → Bool) × Nat)
    (hb : abm age = some b) (hrow : M.get? b = some row)
    (hnn : ∀ p ∈ row, 0 ≤ p) (hpos : 0 < row.sum)
    (hlen : row.length = age_brackets.length)
    (hbne : ∀ bk ∈ age_brackets, bk ≠ []) :
    ∀ (k i : Nat), ∃ l, sampleAgesGo age age_brackets abm M oracle k i = .ok l ∧
      l.length = k ∧ ∀ a ∈ l, ∃ bk ∈ age_brackets, a ∈ bk := by
  intro k
  induction k with
  | zero => intro i; exact ⟨[], rfl, rfl, by simp⟩
  | succ k' ih =>
      intro i
      rcases sample_contact_age_ok (oracle i).1 (oracle i).2 hb hrow hnn hpos hlen hbne
        with ⟨a, ha, hain⟩
      rcases ih (i + 1) with ⟨rest, hrest, hrlen, hrin⟩
      refine ⟨a :: rest, ?_, by simp [hrlen], ?_⟩
      · simp only [sampleAgesGo]
        rw [ha]
        show (match sampleAgesGo age age_brackets abm M oracle k' (i + 1) with
          | Except.error e => Except.error e
          | Except.ok rest => Except.ok (a :: rest)) = Except.ok (a :: rest)
        rw [hrest]
      · intro x hx
        rcases List.mem_cons.mp hx with h | h
        · exact h ▸ hain
        · exact hrin x h

/-- C3: for an individual age covered by the bracket definitions and a
well-formed matrix dictionary and weight set (combination succeeds; the
sampled row is nonnegative with positive sum and one column per bracket;
brackets are nonempty), `sample_n_contact_ages` with `n_contacts = 0`
returns the empty sequence, and with `n_contacts = n` returns exactly `n`
contact ages, each a valid age appearing in some bracket. -/
theorem sample_n_contact_ages_spec
    (n age : Nat) (age_brackets : List (List Nat))
    (mdic : List (String × Mat)) (wdic : List (String × ℚ)) (K : Nat)
    (oracle : Nat → (Nat → Bool) × Nat) (b : Nat) (M : Mat) (row : List ℚ)
    (hM : combine_matrices mdic wdic K = .ok M)
    (hb : get_age_by_brackets_dic age_brackets age = some b)
    (hrow : M.get? b = some row)
    (hnn : ∀ p ∈ row, 0 ≤ p) (hpos : 0 < row.sum)
    (hlen : row.length = age_brackets.length)
    (hbne : ∀ bk ∈ age_brackets, bk ≠ []) :
    ∃ l, sample_n_contact_ages n age age_brackets
        (get_age_by_brackets_dic age_brackets) mdic wdic K oracle = .ok l ∧
      l.length = n ∧ (n = 0 → l = []) ∧
      ∀ a ∈ l, ∃ bk ∈ age_brackets, a ∈ bk := by
  rcases sampleAgesGo_ok oracle hb hrow hnn hpos hlen hbne n 0 with ⟨l, hl, hln, hlin⟩
  refine ⟨l, ?_, hln, ?_, hlin⟩
  · unfold sample_n_contact_ages
    rw [hM]
    exact hl
  · intro h0
    rw [h0] at hln
    exact List.length_eq_zero.mp hln

/-- Witness for `sample_n_contact_ages_spec`: 2 contacts for age 0 under
brackets `[[0,1],[2,3]]` and the uniform matrix `[[1,1],[1,1]]`. -/
theorem sample_n_contact_ages_spec_witness :
    ∃ l, sample_n_contact_ages 2 0 [[0, 1], [2, 3]]
        (get_age_by_brackets_dic [[0, 1], [2, 3]])
        [("H", [[(1 : ℚ), 1], [1, 1]])] [("H", 1)] 2
        (fun _ => (fun _ => false, 0)) = .ok l ∧
      l.length = 2 ∧ (2 = 0 → l = []) ∧
      ∀ a ∈ l, ∃ bk ∈ ([[0, 1], [2, 3]] : List (List Nat)), a ∈ bk := by
  apply sample_n_contact_ages_spec 2 0 [[0, 1], [2, 3]]
      [("H", [[(1 : ℚ), 1], [1, 1]])] [("H", 1)] 2
      (fun _ => (fun _ => false, 0)) 0 [[(1 : ℚ), 1], [1, 1]] [(1 : ℚ), 1]
  · norm_num [combine_matrices, combine_go, lookupMat, bcastAdd, broadcastOK,
      matRect, matRows, matCols, matSmul, npZeros, List.find?,
      List.replicate_succ, List.zipWith_cons_cons,
      show ("H" == "H") = true from rfl]
  · decide
  · rfl
  · intro p hp
    simp only [List.mem_cons, List.not_mem_nil, or_false] at hp
    rcases hp with h | h <;> rw [h] <;> norm_num
  · norm_num
  · rfl
  · decide

/-- The two brackets of the end-to-end scenario: bracket 0 is ages 0-17,
bracket 1 is ages 18-99. -/
def twoBrackets : List (List Nat) := [np_arange 0 17, np_arange 18 99]

/-- The single-setting matrix dict of the end-to-end scenario: only
cross-bracket contact. -/
def crossMatDic : List (String × Mat) := [("H", [[0, 1], [1, 0]])]

/-- The weight set `{H: 1}` of the end-to-end scenario. -/
def houseWeights : List (String × ℚ) := [("H", 1)]

theorem np_arange_bounds {lo hi a : Nat} (h : a ∈ np_arange lo hi) :
    lo ≤ a ∧ a ≤ hi := by
  unfold np_arange at h
  rcases List.mem_map.mp h with ⟨k, hk, rfl⟩
  rw [List.mem_range] at hk
  omega

theorem crossrow_samples_one (coins : Nat → Bool) :
    sample_single_arr [(0 : ℚ), 1] coins = .ok 1 := by
  norm_num [sample_single_arr, multinomialOne, mWalk, binomDrawOne, List.dropLast]
  intro h
  simp at h

theorem cross_contact_step (coins : Nat → Bool) (pick : Nat) :
    ∃ a, sample_contact_age 10 twoBrackets (get_age_by_brackets_dic twoBrackets)
        [[(0 : ℚ), 1], [1, 0]] coins pick = .ok a ∧ 18 ≤ a ∧ a ≤ 99 := by
  have hane : np_arange 18 99 ≠ [] := by decide
  rcases np_choice_mem pick hane with ⟨a, ha, ham⟩
  refine ⟨a, ?_, (np_arange_bounds ham).1, (np_arange_bounds ham).2⟩
  unfold sample_contact_age
  rw [show get_age_by_brackets_dic twoBrackets 10 = some 0 from by decide]
  show (match ([[(0 : ℚ), 1], [1, 0]] : Mat).get? 0 with
    | none => Except.error PyErr.indexError
    | some row =>
      match sample_single_arr row coins with
      | Except.error e => Except.error e
      | Except.ok b_contact =>
        match twoBrackets.get? b_contact with
        | none => Except.error PyErr.keyError
        | some bk => np_choice bk pick) = Except.ok a
  rw [show ([[(0 : ℚ), 1], [1, 0]] : Mat).get? 0 = some [(0 : ℚ), 1] from rfl]
  show (match sample_single_arr [(0 : ℚ), 1] coins with
    | Except.error e => Except.error e
    | Except.ok b_contact =>
      match twoBrackets.get? b_contact with
      | none => Except.error PyErr.keyError
      | some bk => np_choice bk pick) = Except.ok a
  rw [crossrow_samples_one coins]
  show (match twoBrackets.get? 1 with
    | none => Except.error PyErr.keyError
    | some bk => np_choice bk pick) = Except.ok a
  rw [show twoBrackets.get? 1 = some (np_arange 18 99) from rfl]
  exact ha

/-- C2: in the end-to-end scenario (brackets 0-17 and 18-99, combined matrix
`[[0,1],[1,0]]` from weight set `{H: 1}`, individual of age 10), for every
number of contacts and every behaviour of the random source the sampling
succeeds and every sampled contact age lies in `[18, 99]`. -/
theorem end_to_end_cross_bracket_spec (n : Nat) (oracle : Nat → (Nat → Bool) × Nat) :
    ∃ l, sample_n_contact_ages n 10 twoBrackets
        (get_age_by_brackets_dic twoBrackets) crossMatDic houseWeights 2 oracle =
        .ok l ∧
      ∀ a ∈ l, 18 ≤ a ∧ a ≤ 99 := by
  have hM : combine_matrices crossMatDic houseWeights 2 = .ok [[(0 : ℚ), 1], [1, 0]] := by
    norm_num [combine_matrices, combine_go, lookupMat, bcastAdd, broadcastOK,
      matRect, matRows, matCols, matSmul, npZeros, List.find?, crossMatDic,
      houseWeights, List.replicate_succ, List.zipWith_cons_cons,
      show ("H" == "H") = true from rfl]
  have hgo : ∀ (k i : Nat), ∃ l, sampleAgesGo 10 twoBrackets
      (get_age_by_brackets_dic twoBrackets) [[(0 : ℚ), 1], [1, 0]] oracle k i =
      .ok l ∧ ∀ a ∈ l, 18 ≤ a ∧ a ≤ 99 := by
    intro k
    induction k with
    | zero => intro i; exact ⟨[], rfl, by simp⟩
    | succ k' ih =>
        intro i
        rcases cross_contact_step (oracle i).1 (oracle i).2 with ⟨a, ha, h18, h99⟩
        rcases ih (i + 1) with ⟨rest, hrest, hrin⟩
        refine ⟨a :: rest, ?_, ?_⟩
        · simp only [sampleAgesGo]
          rw [ha]
          show (match sampleAgesGo 10 twoBrackets (get_age_by_brackets_dic twoBrackets)
              [[(0 : ℚ), 1], [1, 0]] oracle k' (i + 1) with
            | Except.error e => Except.error e
            | Except.ok rest => Except.ok (a :: rest)) = Except.ok (a :: rest)
          rw [hrest]
        · intro x hx
          rcases List.mem_cons.mp hx with h | h
          · exact h ▸ ⟨h18, h99⟩
          · exact hrin x h
  rcases hgo n 0 with ⟨l, hl, hlin⟩
  refine ⟨l, ?_, hlin⟩
  unfold sample_n_contact_ages
  rw [hM]
  exact hl

/-- Witness for `end_to_end_cross_bracket_spec` at one contact with a fixed
random source. -/
theorem end_to_end_cross_bracket_spec_witness :
    ∃ l, sample_n_contact_ages 1 10 twoBrackets
        (get_age_by_brackets_dic twoBrackets) crossMatDic houseWeights 2
        (fun _ => (fun _ => false, 0)) = .ok l ∧
      ∀ a ∈ l, 18 ≤ a ∧ a ≤ 99 :=
  end_to_end_cross_bracket_spec 1 (fun _ => (fun _ => false, 0))

/-- Python dict lookup `contact_ids_by_age_dic[age]`. -/
def lookupPool (pool : List (Nat × List Nat)) (a : Nat) : Option (List Nat) :=
  (pool.find? (fun p => p.1 == a)).map Prod.snd

/-- `potential_contacts` accumulation of `get_n_contact_ids_by_age`
(synthpops.py lines 171-173): concatenate the pools of every age of the
bracket, raising `KeyError` on an age missing from the pool dict. -/
def gatherPool (pool : List (Nat × List Nat)) : List Nat → Except PyErr (List Nat)
  | [] => .ok []
  | a :: rest =>
      match lookupPool pool a with
      | none => .error .keyError
      | some ids =>
          match gatherPool pool rest with
          | .error e => .error e
          | .ok more => .ok (ids ++ more)

/-- Loop of `get_n_contact_ids_by_age` (synthpops.py lines 166-175).  Both
branches end in a call to `np.choice(...)` — an attribute that does not
exist in the numpy module (only `np.random.choice` does) — so every
iteration raises `AttributeError` before an identifier can be drawn. -/
def contactIdsGo (pool : List (Nat × List Nat)) (age_brackets : List (List Nat))
    (abm : Nat → Option Nat) : List Nat → List Nat → Except PyErr (List Nat)
  | [], acc => .ok acc
  | ca :: _rest, _acc =>
      match lookupPool pool ca with
      | none => .error .keyError
      | some ids =>
          if ids.length > 0 then
            .error .attributeError
          else
            match abm ca with
            | none => .error .keyError
            | some b =>
                match age_brackets.get? b with
                | none => .error .keyError
                | some bk =>
                    match gatherPool pool bk with
                    | .error e => .error e
                    | .ok _pot => .error .attributeError

/-- Source `get_n_contact_ids_by_age` (synthpops.py lines 160-176), the
Contact Identity Resolver.  The accumulating set starts empty; with a
nonempty list of contact ages the loop body always fails (see
`contactIdsGo`). -/
def get_n_contact_ids_by_age (contact_ids_by_age_dic : List (Nat × List Nat))
    (contact_ages : List Nat) (age_brackets : List (List Nat))
    (age_by_brackets_dic : Nat → Option Nat) : Except PyErr (List Nat) :=
  contactIdsGo contact_ids_by_age_dic age_brackets age_by_brackets_dic contact_ages []

/-- C4 (code bug): in the claim's own scenario — the pool for age 10 is
empty but age 11 of the same bracket has a candidate — the resolver raises
`AttributeError` (the source calls `np.choice`, which does not exist; numpy
has only `np.random.choice`), instead of returning identifier 7; the
nonempty-pool branch fails in the same way. -/
theorem get_n_contact_ids_by_age_attrerror :
    get_n_contact_ids_by_age [(10, []), (11, [7])] [10] [[10, 11]]
      (get_age_by_brackets_dic [[10, 11]]) = .error .attributeError ∧
    get_n_contact_ids_by_age [(10, [42])] [10] [[10]]
      (get_age_by_brackets_dic [[10]]) = .error .attributeError := by
  constructor <;> rfl

/-- Random data consumed by `get_age_sex`: multinomial coins for the bracket
draw, a pick for the uniform age choice, a Bernoulli bit for the sex draw,
and for the fallback path a coin for `pl.randint(2)` and a standard-normal
value `z` for `pl.normal(mean, std) = mean + std * z`. -/
structure AgeSexRand where
  coins : Nat → Bool
  pick : Nat
  sexBit : Bool
  fbSex : Bool
  fbGauss : ℚ

/-- `np.random.binomial(1, p)`: `ValueError` (an invalid distribution
parameter) for `p` outside `[0,1]`; deterministic at the endpoints,
otherwise the oracle's bit. -/
def np_binomial1 (p : ℚ) (bit : Bool) : Except PyErr Nat :=
  if p < 0 ∨ 1 < p then .error .invalidDistribution
  else .ok (if p ≤ 0 then 0 else if 1 ≤ p then 1 else (if bit then 1 else 0))

/-- Lookup `gender_fraction_by_age['male'][b]`. -/
def lookupGF (gfba : List (String × List (Nat × ℚ))) (s : String) (b : Nat) :
    Option ℚ :=
  match (gfba.find? (fun p => p.1 == s)).map Prod.snd with
  | none => none
  | some tbl => (tbl.find? (fun p => p.1 == b)).map Prod.snd

/-- Primary path of `get_age_sex` (synthpops.py lines 183-187): draw a
bracket position from the age-bracket distribution, an age uniformly from
that bracket, and the sex from the bracket's male fraction. -/
def get_age_sex_primary (gfba : List (String × List (Nat × ℚ)))
    (age_bracket_distr : List (Nat × ℚ)) (age_brackets : List (List Nat))
    (r : AgeSexRand) : Except PyErr (ℚ × Nat) :=
  match sample_bracket age_bracket_distr age_brackets r.coins with
  | .error e => .error e
  | .ok b =>
      match age_brackets.get? b with
      | none => .error .keyError
      | some bk =>
          match np_choice bk r.pick with
          | .error e => .error e
          | .ok age =>
              match lookupGF gfba "male" b with
              | none => .error .keyError
              | some pmale =>
                  match np_binomial1 pmale r.sexBit with
                  | .error e => .error e
                  | .ok sex => .ok ((age : ℚ), sex)

/-- `pl.median([x, y, z])`: the middle element of the sorted list. -/
def pl_median3 (x y z : ℚ) : ℚ :=
  (List.insertionSort (· ≤ ·) [x, y, z]).getD 1 0

/-- Fallback path of `get_age_sex` (synthpops.py lines 189-191): sex uniform
on `{0,1}` via `pl.randint(2)` (which never fails), age drawn from
`pl.normal(mean, std)` = `mean + std * z` and clamped to
`[min_age, max_age]` via the median.  `pl.normal` raises `ValueError`
(`invalidDistribution`) when its scale `age_std` is negative; that failure
happens inside the bare `except:` block, so nothing catches it. -/
def get_age_sex_fallback (min_age max_age age_mean age_std : ℚ)
    (r : AgeSexRand) : Except PyErr (ℚ × Nat) :=
  if age_std < 0 then .error .invalidDistribution
  else .ok (pl_median3 min_age (age_mean + age_std * r.fbGauss) max_age,
    if r.fbSex then 1 else 0)

/-- Source `get_age_sex` (synthpops.py lines 178-192): try the primary
sampling path; the bare `except:` catches every failure of that path and
runs the parametric fallback instead.  A failure raised by the fallback
itself (`pl.normal` with a negative `age_std`) propagates to the caller.
The `age_by_brackets` argument is unused by the source body. -/
def get_age_sex (gfba : List (String × List (Nat × ℚ)))
    (age_bracket_distr : List (Nat × ℚ)) (_age_by_brackets : Nat → Option Nat)
    (age_brackets : List (List Nat))
    (min_age max_age age_mean age_std : ℚ) (r : AgeSexRand) :
    Except PyErr (ℚ × Nat) :=
  match get_age_sex_primary gfba age_bracket_distr age_brackets r with
  | .ok v => .ok v
  | .error _ => get_age_sex_fallback min_age max_age age_mean age_std r

theorem pl_median3_bounds {lo hi : ℚ} (x : ℚ) (h : lo ≤ hi) :
    lo ≤ pl_median3 lo x hi ∧ pl_median3 lo x hi ≤ hi := by
  unfold pl_median3
  by_cases h1 : x ≤ hi
  · by_cases h2 : lo ≤ x
    · have e : (List.insertionSort (· ≤ ·) [lo, x, hi]).getD 1 0 = x := by
        simp [List.insertionSort, List.orderedInsert, h1, h2,
          List.getD_cons_succ, List.getD_cons_zero]
      rw [e]
      exact ⟨h2, h1⟩
    · have e : (List.insertionSort (· ≤ ·) [lo, x, hi]).getD 1 0 = lo := by
        simp [List.insertionSort, List.orderedInsert, h1, h2, h,
          List.getD_cons_succ, List.getD_cons_zero]
      rw [e]
      exact ⟨le_refl lo, h⟩
  · have e : (List.insertionSort (· ≤ ·) [lo, x, hi]).getD 1 0 = hi := by
      simp [List.insertionSort, List.orderedInsert, h1, h,
        List.getD_cons_succ, List.getD_cons_zero]
    rw [e]
    exact ⟨h, le_refl hi⟩

theorem multinomialOne_nil (coins : Nat → Bool) :
    multinomialOne [] coins = .error .indexError := by
  unfold multinomialOne
  rw [if_neg (by simp), if_neg (by norm_num), if_pos rfl]

/-- C5: for a well-configured generator (`min_age ≤ max_age` and a
nonnegative standard deviation, as with the source's defaults 0, 99, 40,
20), `get_age_sex` never propagates a failure: for every distribution
input — malformed ones such as the empty age-bracket distribution or a
missing gender-fraction key included — it returns an (age, sex) pair.
Every failure of the primary path is caught by the bare `except:` and
answered by the fallback, whose sex is 0 or 1 and whose age lies in
`[min_age, max_age]`; in particular the empty age-bracket distribution
makes the primary path fail and hence takes the fallback. -/
theorem get_age_sex_spec (gfba : List (String × List (Nat × ℚ)))
    (distr : List (Nat × ℚ)) (abm : Nat → Option Nat)
    (abr : List (List Nat)) (min_age max_age age_mean age_std : ℚ)
    (r : AgeSexRand) (h : min_age ≤ max_age) (hstd : 0 ≤ age_std) :
    (∃ age sex, get_age_sex gfba distr abm abr min_age max_age age_mean age_std r =
      .ok (age, sex)) ∧
    (∀ e, get_age_sex_primary gfba distr abr r = .error e →
      ∃ age sex,
        get_age_sex gfba distr abm abr min_age max_age age_mean age_std r =
          .ok (age, sex) ∧
        get_age_sex_fallback min_age max_age age_mean age_std r = .ok (age, sex) ∧
        (sex = 0 ∨ sex = 1) ∧ min_age ≤ age ∧ age ≤ max_age) ∧
    (distr = [] → ∃ e, get_age_sex_primary gfba distr abr r = .error e) := by
  have hfb : get_age_sex_fallback min_age max_age age_mean age_std r =
      .ok (pl_median3 min_age (age_mean + age_std * r.fbGauss) max_age,
        if r.fbSex then 1 else 0) := by
    unfold get_age_sex_fallback
    rw [if_neg (not_lt.mpr hstd)]
  refine ⟨?_, ?_, ?_⟩
  · cases hp : get_age_sex_primary gfba distr abr r with
    | ok v =>
        refine ⟨v.1, v.2, ?_⟩
        unfold get_age_sex
        rw [hp]
    | error e =>
        refine ⟨pl_median3 min_age (age_mean + age_std * r.fbGauss) max_age,
          (if r.fbSex then (1 : Nat) else 0), ?_⟩
        unfold get_age_sex
        rw [hp, hfb]
  · intro e he
    refine ⟨pl_median3 min_age (age_mean + age_std * r.fbGauss) max_age,
      (if r.fbSex then (1 : Nat) else 0), ?_, hfb, ?_,
      (pl_median3_bounds _ h).1, (pl_median3_bounds _ h).2⟩
    · unfold get_age_sex
      rw [he, hfb]
    · cases r.fbSex <;> simp
  · intro hd
    subst hd
    refine ⟨.indexError, ?_⟩
    have hs : sample_bracket [] abr r.coins = .error .indexError := by
      unfold sample_bracket
      rw [show (sortedKeys ([] : List (Nat × ℚ))).map (lookupD []) = [] from rfl]
      exact multinomialOne_nil r.coins
    unfold get_age_sex_primary
    rw [hs]

/-- Witness for `get_age_sex_spec`: the empty bracket distribution with the
source's default parameter values and a fixed random source. -/
theorem get_age_sex_spec_witness :
    (∃ age sex, get_age_sex [] [] (fun _ => none) [] 0 99 40 20
      ⟨fun _ => false, 0, false, false, 0⟩ = .ok (age, sex)) ∧
    (∀ e, get_age_sex_primary [] [] [] ⟨fun _ => false, 0, false, false, 0⟩ =
        .error e →
      ∃ age sex,
        get_age_sex [] [] (fun _ => none) [] 0 99 40 20
          ⟨fun _ => false, 0, false, false, 0⟩ = .ok (age, sex) ∧
        get_age_sex_fallback 0 99 40 20 ⟨fun _ => false, 0, false, false, 0⟩ =
          .ok (age, sex) ∧
        (sex = 0 ∨ sex = 1) ∧ 0 ≤ age ∧ age ≤ 99) ∧
    (([] : List (Nat × ℚ)) = [] → ∃ e, get_age_sex_primary [] [] []
      ⟨fun _ => false, 0, false, false, 0⟩ = .error e) :=
  get_age_sex_spec [] [] (fun _ => none) [] 0 99 40 20
    ⟨fun _ => false, 0, false, false, 0⟩ (by norm_num) (by norm_num)
